import Mathlib

/-!
# Verification of the Cube-Cryptography-Sim core

Shallow embedding of the cipher core of the repository:

* `src/cipher_engine.js` — alphabet codec, key-derived step constants,
  CFB-style encrypt/decrypt sequence loops (`CubeCipherEngine`);
* `src/cube.js` — the 27-cell cube state machine (`CubeSimulator`):
  initialization from a 54-label character set, quarter-turn moves,
  the fixed-position sensor read, and the animation queue;
* `src/main.js` — the standalone page variant of the cipher loop that
  omits round constants.

Characters are embedded as their code points (`Nat`), strings as lists
of code points.  JavaScript numbers that only ever hold integers are
embedded as `Int`/`Nat`; the one floating-point component, the
`Math.sin`-based PRNG `random`, is embedded as an abstract parameter
`rand : Int → ℚ` (its JS arguments are always integers, its output is a
fractional part in `[0,1)`).  Quaternion orientations are embedded as
the exact rotation they denote, represented by the integer images of
the three local axes; quarter-turn composition and the sensor's
dot-product test are exact in this representation, and the snapped
integer positions match `Math.round` in the source.
-/

namespace CubeSim

/-! ## JavaScript arithmetic helpers -/

/-- The JavaScript `%` operator on integers: truncated remainder, the
result takes the sign of the dividend. -/
def jsMod (a b : Int) : Int := if 0 ≤ a then a % b else -((-a) % b)

/-- `src/cipher_engine.js` line 145: `while (pVal < 0) pVal += 53;`.
The value it is applied to is a JS remainder mod 53, which lies in
`(-53, 53)`, so the loop body runs at most once; it is embedded as a
single conditional addition. -/
def normNonneg (v : Int) : Int := if v < 0 then v + 53 else v

theorem jsMod_eq_emod_of_nonneg (a b : Int) (h : 0 ≤ a) : jsMod a b = a % b := by
  simp [jsMod, h]

theorem normNonneg_jsMod (a : Int) : normNonneg (jsMod a 53) = a % 53 := by
  unfold normNonneg jsMod
  split_ifs <;> omega

theorem jsMod_add_53_jsMod (a : Int) : jsMod (jsMod a 53 + 53) 53 = a % 53 := by
  unfold jsMod
  split_ifs <;> omega

/-! ## Alphabet codec (`cipher_engine.js` lines 36–48, identical code in
`main.js` lines 31–43) -/

/-- The 53-symbol alphabet kept by the input filter
`replace(/[^A-Za-z ]/g, '')`: upper case, lower case, space. -/
def isAlphaCode (c : Nat) : Bool :=
  (65 ≤ c && c ≤ 90) || (97 ≤ c && c ≤ 122) || c == 32

/-- `toIndex`: space ↦ 52, `A`–`Z` ↦ 0–25, `a`–`z` ↦ 26–51, anything
else falls back to 0. -/
def toIndex (c : Nat) : Nat :=
  if c = 32 then 52
  else if 65 ≤ c ∧ c ≤ 90 then c - 65
  else if 97 ≤ c ∧ c ≤ 122 then c - 97 + 26
  else 0

/-- `fromIndex`: 52 ↦ space, 0–25 ↦ `A`–`Z`, otherwise `i - 26 + 97`.
`String.fromCharCode` coerces its argument to an unsigned 16-bit value,
embedded as the nonnegative remainder mod 65536. -/
def fromIndex (i : Int) : Nat :=
  if i = 52 then 32
  else if i ≤ 25 then ((i + 65) % 65536).toNat
  else ((i - 26 + 97) % 65536).toNat

theorem toIndex_le (c : Nat) : toIndex c ≤ 52 := by
  unfold toIndex
  split_ifs <;> omega

theorem fromIndex_toIndex (c : Nat) (h : isAlphaCode c = true) :
    fromIndex (toIndex c) = c := by
  simp only [isAlphaCode, Bool.or_eq_true, Bool.and_eq_true, decide_eq_true_eq,
    beq_iff_eq] at h
  unfold toIndex fromIndex
  split_ifs <;> omega

theorem toIndex_fromIndex (v : Int) (h0 : 0 ≤ v) (h1 : v ≤ 52) :
    (toIndex (fromIndex v) : Int) = v := by
  unfold toIndex fromIndex
  split_ifs <;> omega

theorem isAlphaCode_fromIndex (v : Int) (h0 : 0 ≤ v) (h1 : v ≤ 52) :
    isAlphaCode (fromIndex v) = true := by
  simp only [isAlphaCode, Bool.or_eq_true, Bool.and_eq_true, decide_eq_true_eq,
    beq_iff_eq]
  unfold fromIndex
  split_ifs <;> omega

/-! ## Key schedule (`cipher_engine.js` lines 16–33) -/

/-- The seed accumulator of `generateStepConstants`:
`seedNum += seedKey.charCodeAt(i) * (i + 1)` — position-weighted. -/
def seedNumWeighted (seed : List Nat) : Int :=
  ((seed.enum.map (fun p => (p.2 : Int) * ((p.1 : Int) + 1))).sum)

/-- The loop of `generateStepConstants`: at slot `i` the running value
advances by `i + 1`, then `Math.floor(random(s) * 53)` is pushed.
`rand` abstracts the `Math.sin`-based `random`. -/
def gscAux (rand : Int → ℚ) (s : Int) (i : Nat) : Nat → List Int
  | 0 => []
  | n + 1 =>
    let s2 := s + ((i : Int) + 1)
    Rat.floor (rand s2 * 53) :: gscAux rand s2 (i + 1) n

/-- `CubeCipherEngine.generateStepConstants(seedKey, length)`. -/
def generateStepConstants (rand : Int → ℚ) (seed : List Nat) (length : Nat) :
    List Int :=
  gscAux rand (seedNumWeighted seed) 0 length

/-- `getStepConstant(i)` (`cipher_engine.js` lines 56–59): 0 when the
table is absent or empty, else the table consumed cyclically. -/
def getStepConstant (table : List Int) (i : Nat) : Int :=
  if table.length = 0 then 0 else table.getD (i % table.length) 0

theorem getStepConstant_nonneg (table : List Int) (i : Nat)
    (h : ∀ rc ∈ table, 0 ≤ rc) : 0 ≤ getStepConstant table i := by
  unfold getStepConstant
  split_ifs with hlen
  · exact le_refl 0
  · have hlt : i % table.length < table.length :=
      Nat.mod_lt _ (Nat.pos_of_ne_zero hlen)
    rw [List.getD_eq_getElem table 0 hlt]
    exact h _ (List.getElem_mem hlt)

/-! ## Cube state machine (`cube.js`) -/

/-- An integer lattice vector; positions are snapped by `Math.round`
in `animateMove`, so they are exactly integral. -/
structure V3 where
  x : Int
  y : Int
  z : Int
deriving DecidableEq, Repr

/-- A cubie orientation: the exact rotation denoted by the cubie's
quaternion, represented by the world images of the three local axes
(columns of the rotation matrix).  Cubies start unrotated and are only
ever composed with exact quarter turns. -/
structure Orient where
  cx : V3
  cy : V3
  cz : V3
deriving DecidableEq, Repr

/-- Apply an orientation to a local vector (`applyQuaternion`). -/
def orientApply (o : Orient) (n : V3) : V3 :=
  ⟨n.x * o.cx.x + n.y * o.cy.x + n.z * o.cz.x,
   n.x * o.cx.y + n.y * o.cy.y + n.z * o.cz.y,
   n.x * o.cx.z + n.y * o.cy.z + n.z * o.cz.z⟩

def dotV (u v : V3) : Int := u.x * v.x + u.y * v.y + u.z * v.z

def crossV (u v : V3) : V3 :=
  ⟨u.y * v.z - u.z * v.y, u.z * v.x - u.x * v.z, u.x * v.y - u.y * v.x⟩

def idOrient : Orient := ⟨⟨1, 0, 0⟩, ⟨0, 1, 0⟩, ⟨0, 0, 1⟩⟩

/-- The twelve generator moves of `animateMove`; `p` marks a primed
(counter-clockwise) turn. -/
inductive Move where
  | U | Up | D | Dp | L | Lp | R | Rp | F | Fp | B | Bp
deriving DecidableEq, Repr

/-- The exact effect on coordinates of the quarter-turn rotation that
`animateMove` applies for each move (the THREE.js right-handed rotation
about the move's axis by the move's angle, followed by the integer
snap). -/
def moveMap (m : Move) (v : V3) : V3 :=
  match m with
  | .U => ⟨-v.z, v.y, v.x⟩
  | .Up => ⟨v.z, v.y, -v.x⟩
  | .D => ⟨v.z, v.y, -v.x⟩
  | .Dp => ⟨-v.z, v.y, v.x⟩
  | .R => ⟨v.x, v.z, -v.y⟩
  | .Rp => ⟨v.x, -v.z, v.y⟩
  | .L => ⟨v.x, -v.z, v.y⟩
  | .Lp => ⟨v.x, v.z, -v.y⟩
  | .F => ⟨v.y, -v.x, v.z⟩
  | .Fp => ⟨-v.y, v.x, v.z⟩
  | .B => ⟨-v.y, v.x, v.z⟩
  | .Bp => ⟨v.y, -v.x, v.z⟩

/-- The coordinate of a position on the move's rotation axis
(`c.position[axis]` in the layer filter of `animateMove`). -/
def moveAxisCoord (m : Move) (v : V3) : Int :=
  match m with
  | .U | .Up | .D | .Dp => v.y
  | .L | .Lp | .R | .Rp => v.x
  | .F | .Fp | .B | .Bp => v.z

/-- The layer value selecting which cubies a move rotates. -/
def moveLayer (m : Move) : Int :=
  match m with
  | .U | .Up | .R | .Rp | .F | .Fp => 1
  | .D | .Dp | .L | .Lp | .B | .Bp => -1

/-- Premultiplying a cubie's orientation by the move's rotation
(`applyMatrix4` on the settled pivot). -/
def rotOrient (m : Move) (o : Orient) : Orient :=
  ⟨moveMap m o.cx, moveMap m o.cy, moveMap m o.cz⟩

/-- One cubie: snapped position, exact orientation, and the six
face materials in `initCube` order Right, Left, Top, Bottom, Front,
Back — `some` holds the character painted on a sticker, `none` is the
blank interior-facing material.  Materials are fixed at initialization
and never rewritten by moves. -/
structure Cell where
  pos : V3
  orient : Orient
  labels : List (Option Nat)
deriving DecidableEq, Repr

/-- `animateMove`: rotate exactly the cubies whose coordinate on the
move's axis equals the layer value; positions are rotated and snapped,
orientations are premultiplied by the same rotation, materials are
untouched. -/
def applyMove (m : Move) (st : List Cell) : List Cell :=
  st.map fun c =>
    if moveAxisCoord m c.pos = moveLayer m then
      ⟨moveMap m c.pos, rotOrient m c.orient, c.labels⟩
    else c

def applyMoves (ms : List Move) (st : List Cell) : List Cell :=
  ms.foldl (fun s m => applyMove m s) st

/-- One step of the facelet assignment in `initCube`: if the cubie lies
on the face, consume `charSet[faceIndexCounter++]` (an out-of-range
read yields `undefined`, i.e. a blank material), else a blank material
and an unchanged counter. -/
def takeFace (cond : Bool) (cs : List Nat) (ctr : Nat) : Option Nat × Nat :=
  if cond then (cs.get? ctr, ctr + 1) else (none, ctr)

/-- Build one cubie of `initCube`: materials pushed in order
Right(+x), Left(-x), Top(+y), Bottom(-y), Front(+z), Back(-z). -/
def cellAt (cs : List Nat) (ctr : Nat) (x y z : Int) : Cell × Nat :=
  let r := takeFace (x == 1) cs ctr
  let l := takeFace (x == -1) cs r.2
  let u := takeFace (y == 1) cs l.2
  let d := takeFace (y == -1) cs u.2
  let f := takeFace (z == 1) cs d.2
  let b := takeFace (z == -1) cs f.2
  (⟨⟨x, y, z⟩, idOrient, [r.1, l.1, u.1, d.1, f.1, b.1]⟩, b.2)

/-- The `initCube` iteration order: `x`, `y`, `z` each over −1, 0, 1,
innermost `z`. -/
def coordList : List (Int × Int × Int) :=
  [-1, 0, 1].flatMap fun x =>
    [-1, 0, 1].flatMap fun y =>
      [-1, 0, 1].map fun z => (x, y, z)

def initCubeAux (cs : List Nat) : Nat → List (Int × Int × Int) → List Cell
  | _, [] => []
  | ctr, (x, y, z) :: rest =>
    let p := cellAt cs ctr x y z
    p.1 :: initCubeAux cs p.2 rest

/-- `initCube(seedKey)` after the character set has been generated:
27 cubies on the lattice, unrotated, stickers consumed from the
54-symbol character set in the fixed enumeration order. -/
def initCube (cs : List Nat) : List Cell := initCubeAux cs 0 coordList

/-! ### Sensor (`getSensorValue`, `cube.js` lines 233–306) -/

/-- Local face normals in material order Right, Left, Top, Bottom,
Front, Back. -/
def localNormals : List V3 :=
  [⟨1, 0, 0⟩, ⟨-1, 0, 0⟩, ⟨0, 1, 0⟩, ⟨0, -1, 0⟩, ⟨0, 0, 1⟩, ⟨0, 0, -1⟩]

/-- The fold of `getSensorValue` over the six normals, keeping the best
world-space alignment with world up.  Dot products are exact integers
here, so comparisons against the JS constants −1.0 (initial best) and
0.9 (confidence threshold) are embedded exactly by scaling by 10:
`d > bestDot` and `bestDot < 0.9` distinguish the same integer dots as
`10*d > 10*bestDot` and `10*bestDot < 9`. -/
def bestAux (o : Orient) : List V3 → Nat → Int × Int → Int × Int
  | [], _, acc => acc
  | n :: rest, i, acc =>
    let d := 10 * dotV (orientApply o n) ⟨0, 1, 0⟩
    bestAux o rest (i + 1) (if d > acc.1 then (d, (i : Int)) else acc)

/-- The sensor position: the Front-Top-Right corner (1, 1, 1). -/
def sensorPos : V3 := ⟨1, 1, 1⟩

/-- The character code of the sentinel string `"?"` returned on a
failed read. -/
def sensorUnknown : Nat := 63

/-- `getSensorValue()`: find the cubie at (1,1,1); among its local
normals find the one best aligned with world up; fail below the
confidence threshold; otherwise read the character of the selected
material, failing on a blank (map-less) material. -/
def getSensorValue (st : List Cell) : Nat :=
  match st.find? (fun c => decide (c.pos = sensorPos)) with
  | none => sensorUnknown
  | some cubie =>
    let best := bestAux cubie.orient localNormals 0 (-10, -1)
    if best.1 < 9 then sensorUnknown
    else
      match cubie.labels.getD best.2.toNat none with
      | some ch => ch
      | none => sensorUnknown

/-- The best alignment score (scaled by 10) the sensor sees, with the
convention −10 (the fold's starting value) when no cubie occupies the
sensor position. -/
def sensorBestDot10 (st : List Cell) : Int :=
  match st.find? (fun c => decide (c.pos = sensorPos)) with
  | none => -10
  | some cubie => (bestAux cubie.orient localNormals 0 (-10, -1)).1

/-! ### Character set generation (`generateCharSet`, `cube.js`
lines 142–169) -/

/-- Code points of the fixed 54-character pool
`"ABCDEFGHIJKLMNOPQRSTUVWXYZabcdefghijklmnopqrstuvwxyz A"`:
the 53-symbol alphabet plus a repeated `A` filler. -/
def charPool : List Nat :=
  ((List.range 26).map (fun n => 65 + n)) ++
    ((List.range 26).map (fun n => 97 + n)) ++ [32, 65]

/-- The Fisher–Yates loop of `generateCharSet`:
`for (i = len-1; i > 0; i--) j = floor(random() * (i+1)); swap`.
The `random` closure reads and then increments `seedNum`; the counter
is threaded explicitly.  A negative floor is clamped by `toNat`
(unreachable for a fractional-part `rand`). -/
def fyAux (rand : Int → ℚ) : List Nat → Int → Nat → List Nat
  | pool, _, 0 => pool
  | pool, ctr, i + 1 =>
    let j := (Rat.floor (rand ctr * ((i : ℚ) + 2))).toNat
    let pi := pool.getD (i + 1) 0
    let pj := pool.getD j 0
    fyAux rand ((pool.set (i + 1) pj).set j pi) (ctr + 1) i

/-- The seed accumulator of `generateCharSet`:
`seedNum += seed.charCodeAt(i)` — unweighted. -/
def seedNumPlain (seed : List Nat) : Int := ((seed.map (Int.ofNat)).sum)

/-- `generateCharSet(seed)`: shuffle the fixed pool with the seeded
PRNG; the result is the 54 shuffled entries. -/
def generateCharSet (rand : Int → ℚ) (seed : List Nat) : List Nat :=
  fyAux rand charPool (seedNumPlain seed) 53

/-! ## Cipher feedback engine (`cipher_engine.js` lines 50–162) -/

/-- `movesList = ['U', "U'", 'R', "R'", 'F', "F'"]`. -/
def movesList : List Move := [.U, .Up, .R, .Rp, .F, .Fp]

/-- `getCharMove(char)`: `movesList[charCode % 6]`.  The `!char`
fallback to `'U'` concerns an absent character, which cannot occur for
the one-character strings threaded through the engine, and is not
modelled. -/
def getCharMove (c : Nat) : Move := movesList.getD (c % 6) Move.U

/-- The input filter `replace(/[^A-Za-z ]/g, '')` applied to both
plaintext and ciphertext. -/
def filterAlpha (s : List Nat) : List Nat := s.filter isAlphaCode

/-- The `processNext` recursion of `encryptSequence`: select the move
from the last cipher character, apply it, read the sensor, compute
`C = (P + K + RC) mod 53`, emit the character and feed it back. -/
def encryptLoop (table : List Int) :
    List Cell → Nat → Nat → List Nat → List Nat
  | _, _, _, [] => []
  | st, driving, i, p :: rest =>
    let st2 := applyMove (getCharMove driving) st
    let k := toIndex (getSensorValue st2)
    let cVal := jsMod ((toIndex p : Int) + (k : Int) + getStepConstant table i) 53
    let cChar := fromIndex cVal
    cChar :: encryptLoop table st2 cChar (i + 1) rest

/-- `encryptSequence(plaintext, ivChar)`: filter, then run the loop
from the given cube state with the IV as initial driving character. -/
def encryptSequence (table : List Int) (st : List Cell) (plaintext : List Nat)
    (ivChar : Nat) : List Nat :=
  encryptLoop table st ivChar 0 (filterAlpha plaintext)

/-- The `processNext` recursion of `decryptSequence`: identical move,
sensor and round-constant derivation, but the driving character is the
input ciphertext character, and `P = (C - K - RC) mod 53` normalized
nonnegative by the `while` loop. -/
def decryptLoop (table : List Int) :
    List Cell → Nat → Nat → List Nat → List Nat
  | _, _, _, [] => []
  | st, driving, i, c :: rest =>
    let st2 := applyMove (getCharMove driving) st
    let k := toIndex (getSensorValue st2)
    let pVal := normNonneg
      (jsMod ((toIndex c : Int) - (k : Int) - getStepConstant table i) 53)
    let pChar := fromIndex pVal
    pChar :: decryptLoop table st2 c (i + 1) rest

/-- `decryptSequence(ciphertext, ivChar)`. -/
def decryptSequence (table : List Int) (st : List Cell) (ciphertext : List Nat)
    (ivChar : Nat) : List Nat :=
  decryptLoop table st ivChar 0 (filterAlpha ciphertext)

/-- The cube state after the moves selected by a list of driving
characters have completed (the state read by the sensor at step `n` is
`cubeAfter st (drivers.take (n+1))` where `drivers` is the IV followed
by the feedback characters). -/
def cubeAfter (st : List Cell) (drivers : List Nat) : List Cell :=
  drivers.foldl (fun s d => applyMove (getCharMove d) s) st

/-! ## The `main.js` cipher variant (no round constants)

`main.js` lines 115–270 carry their own copy of the CFB loop computing
`C = (P + K) mod 53` and `P = (C - K) mod 53` with the same helpers
(its `toIndex`, `fromIndex`, `getCharMove` are textually identical to
the engine's), always re-initializing the cube from the key and using
IV `'A'`. -/

def mainEncryptLoop : List Cell → Nat → List Nat → List Nat
  | _, _, [] => []
  | st, driving, p :: rest =>
    let st2 := applyMove (getCharMove driving) st
    let k := toIndex (getSensorValue st2)
    let cVal := jsMod ((toIndex p : Int) + (k : Int)) 53
    let cChar := fromIndex cVal
    cChar :: mainEncryptLoop st2 cChar rest

/-- `runEncryption()` of `main.js`: filter, re-key the cube, IV `'A'`. -/
def mainRunEncryption (cs : List Nat) (raw : List Nat) : List Nat :=
  mainEncryptLoop (initCube cs) 65 (filterAlpha raw)

def mainDecryptLoop : List Cell → Nat → List Nat → List Nat
  | _, _, [] => []
  | st, driving, c :: rest =>
    let st2 := applyMove (getCharMove driving) st
    let k := toIndex (getSensorValue st2)
    let pVal := normNonneg (jsMod ((toIndex c : Int) - (k : Int)) 53)
    let pChar := fromIndex pVal
    pChar :: mainDecryptLoop st2 c rest

/-- `runDecryption()` of `main.js` (its normalization is a single `if`,
the same conditional addition as `normNonneg`). -/
def mainRunDecryption (cs : List Nat) (raw : List Nat) : List Nat :=
  mainDecryptLoop (initCube cs) 65 (filterAlpha raw)

/-! ## Animation queue (`cube.js` lines 312–351) -/

/-- The queueing state of the simulator: the pending move queue and
the `isAnimating` / `autoProcess` flags. -/
structure SimState where
  animationQueue : List Move
  isAnimating : Bool
  autoProcess : Bool
deriving DecidableEq, Repr

/-- The synchronous part of `processQueue()`: clear `isAnimating` on an
empty queue, otherwise shift the first move, set `isAnimating` and hand
the move to `animateMove` — the returned `Option Move` is the move
whose (asynchronous) animation was just started. -/
def processQueueStart (s : SimState) : SimState × Option Move :=
  match s.animationQueue with
  | [] => ({ s with isAnimating := false }, none)
  | m :: rest => ({ s with isAnimating := true, animationQueue := rest }, some m)

/-- `queueMove(move)`: push the move, then start processing only when
auto-processing and not already animating. -/
def queueMove (m : Move) (s : SimState) : SimState × Option Move :=
  let s1 : SimState := { s with animationQueue := s.animationQueue ++ [m] }
  if s1.autoProcess && !s1.isAnimating then processQueueStart s1 else (s1, none)

/-- The tail of the `animateMove` completion callback inside
`processQueue`: with auto-processing on, chain into `processQueue`
(possibly starting the next queued move), otherwise clear
`isAnimating`. -/
def moveCompleted (s : SimState) : SimState × Option Move :=
  if s.autoProcess then processQueueStart s
  else ({ s with isAnimating := false }, none)

/-! ## Helper lemmas -/

/-- A constant PRNG model, used to instantiate theorems at concrete
inputs. -/
def constRand (q : ℚ) : Int → ℚ := fun _ => q

theorem toIndex_eq_upper (c : Nat) (h1 : 65 ≤ c) (h2 : c ≤ 90) :
    toIndex c = c - 65 := by
  unfold toIndex
  split_ifs <;> omega

theorem toIndex_eq_lower (c : Nat) (h1 : 97 ≤ c) (h2 : c ≤ 122) :
    toIndex c = c - 97 + 26 := by
  unfold toIndex
  split_ifs <;> omega

theorem gscAux_mem_range (rand : Int → ℚ)
    (hrand : ∀ s : Int, 0 ≤ rand s ∧ rand s < 1) :
    ∀ (n : Nat) (s : Int) (i : Nat) (v : Int),
      v ∈ gscAux rand s i n → 0 ≤ v ∧ v < 53 := by
  intro n
  induction n with
  | zero => intro s i v hv; simp [gscAux] at hv
  | succ k ih =>
    intro s i v hv
    simp only [gscAux, List.mem_cons] at hv
    rcases hv with rfl | hv
    · constructor
      · exact Rat.le_floor.mpr (by
          simpa using mul_nonneg (hrand (s + ((i : Int) + 1))).1
            (by norm_num : (0:ℚ) ≤ 53))
      · by_contra hcon
        have h53 : (53 : Int) ≤ Rat.floor (rand (s + ((i : Int) + 1)) * 53) := by
          omega
        have := Rat.le_floor.mp h53
        have hlt : rand (s + ((i : Int) + 1)) * 53 < 53 := by
          have := (hrand (s + ((i : Int) + 1))).2
          nlinarith
        simp only [Int.cast_ofNat] at this
        norm_num at this
        linarith
    · exact ih _ _ _ hv

theorem encryptLoop_empty_table :
    ∀ (data : List Nat) (st : List Cell) (driving i : Nat),
      encryptLoop [] st driving i data = mainEncryptLoop st driving data := by
  intro data
  induction data with
  | nil => intro st driving i; rfl
  | cons p rest ih =>
    intro st driving i
    simp only [encryptLoop, mainEncryptLoop, getStepConstant, List.length_nil,
      eq_self_iff_true, if_true, add_zero]
    rw [ih]

theorem decryptLoop_empty_table :
    ∀ (data : List Nat) (st : List Cell) (driving i : Nat),
      decryptLoop [] st driving i data = mainDecryptLoop st driving data := by
  intro data
  induction data with
  | nil => intro st driving i; rfl
  | cons c rest ih =>
    intro st driving i
    simp only [decryptLoop, mainDecryptLoop, getStepConstant, List.length_nil,
      eq_self_iff_true, if_true, sub_zero]
    rw [ih]

/-! ## Claim theorems -/

/-- C4: the alphabet codec maps `A`–`Z` to 0–25, `a`–`z` to 26–51 and
space to 52; `fromIndex` is the exact inverse of `toIndex` on the
alphabet, `toIndex` the exact inverse of `fromIndex` on `[0,52]`, and
`toIndex` lands in `[0,52]` on every alphabet character. -/
theorem alphabet_codec_exact_inverse :
    (∀ c : Nat, isAlphaCode c = true →
      toIndex c ≤ 52 ∧ fromIndex (toIndex c) = c) ∧
    (∀ i : Nat, i ≤ 52 → toIndex (fromIndex (i : Int)) = i) ∧
    (∀ c : Nat, 65 ≤ c → c ≤ 90 → toIndex c = c - 65) ∧
    (∀ c : Nat, 97 ≤ c → c ≤ 122 → toIndex c = c - 97 + 26) ∧
    toIndex 32 = 52 := by
  refine ⟨fun c h => ⟨toIndex_le c, fromIndex_toIndex c h⟩,
    fun i h => ?_, toIndex_eq_upper, toIndex_eq_lower, rfl⟩
  have := toIndex_fromIndex (i : Int) (by omega) (by omega)
  omega

theorem alphabet_codec_exact_inverse_witness :
    (isAlphaCode 104 = true ∧ fromIndex (toIndex 104) = 104) ∧
    toIndex (fromIndex ((30 : Nat) : Int)) = 30 :=
  ⟨⟨by decide, (alphabet_codec_exact_inverse.1 104 (by decide)).2⟩,
    alphabet_codec_exact_inverse.2.1 30 (by decide)⟩

/-- C5: both key-schedule derivations — the 54-symbol label
permutation `generateCharSet` and the round-constant table
`generateStepConstants` — are pure functions of the seed string.  Their
PRNG state (`seedNum`) is local to each call and threaded explicitly in
the embedding, so equal seeds give identical outputs for any PRNG
model `rand`. -/
theorem key_schedule_deterministic (rand : Int → ℚ) (s t : List Nat)
    (h : s = t) (len : Nat) :
    generateCharSet rand s = generateCharSet rand t ∧
    generateStepConstants rand s len = generateStepConstants rand t len := by
  subst h
  exact ⟨rfl, rfl⟩

theorem key_schedule_deterministic_witness :
    generateCharSet (constRand 0) [68, 69, 70] =
      generateCharSet (constRand 0) [68, 69, 70] ∧
    generateStepConstants (constRand 0) [68, 69, 70] 512 =
      generateStepConstants (constRand 0) [68, 69, 70] 512 :=
  key_schedule_deterministic (constRand 0) [68, 69, 70] [68, 69, 70] rfl 512

/-- C6 (amended): every entry of the round-constant table is an
integer in `[0,53)` — not `[0,52)` as claimed: the table entry is
`Math.floor(rv * 53)` for a fractional part `rv ∈ [0,1)`, which
reaches 52 whenever `rv ≥ 52/53` — and the table is consumed
cyclically by step index. -/
theorem step_constants_range_and_cyclic (rand : Int → ℚ)
    (hrand : ∀ s : Int, 0 ≤ rand s ∧ rand s < 1) (seed : List Nat) (len : Nat) :
    (∀ v ∈ generateStepConstants rand seed len, 0 ≤ v ∧ v < 53) ∧
    (∀ (table : List Int) (i : Nat), table ≠ [] →
      getStepConstant table i = table.getD (i % table.length) 0) := by
  constructor
  · intro v hv
    exact gscAux_mem_range rand hrand len _ 0 v hv
  · intro table i htab
    unfold getStepConstant
    rw [if_neg (by simpa using List.length_pos.mpr htab |>.ne')]

theorem step_constants_range_and_cyclic_witness :
    ((0 : Int) ∈ generateStepConstants (constRand 0) [68] 1 →
      0 ≤ (0 : Int) ∧ (0 : Int) < 53) ∧
    getStepConstant [7, 9] 5 = [7, 9].getD (5 % 2) 0 :=
  ⟨fun hm => (step_constants_range_and_cyclic (constRand 0)
      (fun s => by constructor <;> norm_num [constRand]) [68] 1).1 0 hm,
    (step_constants_range_and_cyclic (constRand 0)
      (fun s => by constructor <;> norm_num [constRand]) [68] 1).2 [7, 9] 5
      (by decide)⟩

/-- C6 counterexample: with the admissible PRNG output `52/53 ∈ [0,1)`
the generated table contains the entry 52, which is not `< 52`; the
claimed interval `[0,52)` excludes a value the generator produces. -/
theorem step_constant_reaches_52 :
    (52 : Int) ∈ generateStepConstants (constRand (52/53)) [] 1 ∧
    ¬ ((52 : Int) < 52) ∧ (0 : ℚ) ≤ 52/53 ∧ (52 : ℚ)/53 < 1 := by
  refine ⟨?_, by omega, by norm_num, by norm_num⟩
  have : generateStepConstants (constRand (52/53)) [] 1 = [52] := by
    norm_num [generateStepConstants, gscAux, seedNumWeighted, constRand]
    decide
  rw [this]
  exact List.mem_singleton.mpr rfl

/-- C8 (amended): `queueMove` issued while a move is animating appends
the move to the animation queue and returns without starting an
animation and without any failure; with auto-processing on, the
deferred move is started later by the completion chain of the in-flight
move. -/
theorem queue_while_animating_defers (s : SimState) (m : Move)
    (h : s.isAnimating = true) :
    queueMove m s = ({ s with animationQueue := s.animationQueue ++ [m] }, none) ∧
    (s.autoProcess = true →
      (moveCompleted (queueMove m s).1).2 = (s.animationQueue ++ [m]).head?) := by
  have h1 : queueMove m s =
      ({ s with animationQueue := s.animationQueue ++ [m] }, none) := by
    simp [queueMove, h]
  refine ⟨h1, fun hauto => ?_⟩
  rw [h1]
  cases s.animationQueue <;> simp [moveCompleted, processQueueStart, hauto]

theorem queue_while_animating_defers_witness :
    queueMove Move.F ⟨[Move.U], true, true⟩ =
      (⟨[Move.U, Move.F], true, true⟩, none) ∧
    (moveCompleted (queueMove Move.F ⟨[Move.U], true, true⟩).1).2 =
      some Move.U :=
  ⟨(queue_while_animating_defers ⟨[Move.U], true, true⟩ Move.F rfl).1,
    (queue_while_animating_defers ⟨[Move.U], true, true⟩ Move.F rfl).2 rfl⟩

/-- C8 counterexample: a concrete `queueMove` call in a state with a
move in flight succeeds and defers the move — it is appended to the
queue, no animation is started and no failure of any kind occurs,
contradicting the claimed fail-fast behavior. -/
theorem queue_while_animating_no_failure :
    queueMove Move.R ⟨[], true, true⟩ = (⟨[Move.R], true, true⟩, none) := rfl

/-- C10: with the constructor's empty step-constant table (set when
`setStepConstants` was never called, or called with an empty table),
`getStepConstant` returns 0 at every index and both engine sequences
coincide with the `main.js` no-round-constant cipher variant
`C = (P + K) mod 53`, `P = (C - K) mod 53`, without any error. -/
theorem empty_table_degenerates :
    (∀ i : Nat, getStepConstant [] i = 0) ∧
    (∀ (cs : List Nat) (raw : List Nat),
      encryptSequence [] (initCube cs) raw 65 = mainRunEncryption cs raw) ∧
    (∀ (cs : List Nat) (raw : List Nat),
      decryptSequence [] (initCube cs) raw 65 = mainRunDecryption cs raw) :=
  ⟨fun _ => rfl,
    fun cs raw => encryptLoop_empty_table (filterAlpha raw) (initCube cs) 65 0,
    fun cs raw => decryptLoop_empty_table (filterAlpha raw) (initCube cs) 65 0⟩

/-! ## Loop lemmas for the cipher sequences -/

theorem filterAlpha_all (s : List Nat) (h : ∀ c ∈ s, isAlphaCode c = true) :
    filterAlpha s = s :=
  List.filter_eq_self.mpr h

theorem encVal_bounds (p k : Nat) (rc : Int) (hrc : 0 ≤ rc) :
    0 ≤ jsMod ((p : Int) + (k : Int) + rc) 53 ∧
      jsMod ((p : Int) + (k : Int) + rc) 53 ≤ 52 := by
  unfold jsMod
  split_ifs <;> omega

theorem encryptLoop_all_alpha (table : List Int)
    (htab : ∀ rc ∈ table, 0 ≤ rc) :
    ∀ (data : List Nat) (st : List Cell) (driving i : Nat),
      ∀ c ∈ encryptLoop table st driving i data, isAlphaCode c = true := by
  intro data
  induction data with
  | nil => intro st driving i c hc; simp [encryptLoop] at hc
  | cons p rest ih =>
    intro st driving i c hc
    simp only [encryptLoop, List.mem_cons] at hc
    rcases hc with rfl | hc
    · have hrc := getStepConstant_nonneg table i htab
      have hb := encVal_bounds (toIndex p)
        (toIndex (getSensorValue (applyMove (getCharMove driving) st)))
        (getStepConstant table i) hrc
      exact isAlphaCode_fromIndex _ hb.1 hb.2
    · exact ih _ _ _ c hc

theorem dec_enc_val (P K : Nat) (rc : Int) (hrc : 0 ≤ rc) (hP : P ≤ 52) :
    (jsMod ((P : Int) + (K : Int) + rc) 53 - (K : Int) - rc) % 53 = P := by
  unfold jsMod
  split_ifs <;> omega

theorem roundtrip_loop (table : List Int) (htab : ∀ rc ∈ table, 0 ≤ rc) :
    ∀ (data : List Nat) (st : List Cell) (driving i : Nat),
      (∀ c ∈ data, isAlphaCode c = true) →
      decryptLoop table st driving i (encryptLoop table st driving i data) = data := by
  intro data
  induction data with
  | nil => intro st driving i _; rfl
  | cons p rest ih =>
    intro st driving i hall
    have hp : isAlphaCode p = true := hall p (List.mem_cons_self p rest)
    have hrest : ∀ c ∈ rest, isAlphaCode c = true :=
      fun c hc => hall c (List.mem_cons_of_mem p hc)
    have hrc : 0 ≤ getStepConstant table i := getStepConstant_nonneg table i htab
    have hb := encVal_bounds (toIndex p)
      (toIndex (getSensorValue (applyMove (getCharMove driving) st)))
      (getStepConstant table i) hrc
    simp only [encryptLoop, decryptLoop]
    congr 1
    · rw [toIndex_fromIndex _ hb.1 hb.2, normNonneg_jsMod,
        dec_enc_val _ _ _ hrc (toIndex_le p)]
      exact fromIndex_toIndex p hp
    · exact ih _ _ _ hrest

/-- C1: for every seed (acting through the PRNG model `rand`, any
deterministic map into `[0,1)` standing for the `Math.sin` generator),
every IV character and every alphabet-only string, decrypting the
encryption under the same seed-derived cube state and round-constant
table returns the plaintext exactly. -/
theorem encrypt_decrypt_round_trip (rand : Int → ℚ)
    (hrand : ∀ s : Int, 0 ≤ rand s ∧ rand s < 1)
    (seed : List Nat) (len : Nat) (iv : Nat) (pt : List Nat)
    (hpt : ∀ c ∈ pt, isAlphaCode c = true) :
    decryptSequence (generateStepConstants rand seed len)
      (initCube (generateCharSet rand seed))
      (encryptSequence (generateStepConstants rand seed len)
        (initCube (generateCharSet rand seed)) pt iv) iv = pt := by
  have htab : ∀ rc ∈ generateStepConstants rand seed len, 0 ≤ rc :=
    fun rc h => (gscAux_mem_range rand hrand len _ 0 rc h).1
  unfold encryptSequence decryptSequence
  rw [filterAlpha_all pt hpt,
    filterAlpha_all _ (encryptLoop_all_alpha _ htab pt _ iv 0),
    roundtrip_loop _ htab pt _ iv 0 hpt]

theorem encrypt_decrypt_round_trip_witness :
    decryptSequence (generateStepConstants (constRand 0) [68, 69, 70] 8)
      (initCube (generateCharSet (constRand 0) [68, 69, 70]))
      (encryptSequence (generateStepConstants (constRand 0) [68, 69, 70] 8)
        (initCube (generateCharSet (constRand 0) [68, 69, 70]))
        [72, 105] 65) 65 = [72, 105] :=
  encrypt_decrypt_round_trip (constRand 0)
    (fun s => by constructor <;> norm_num [constRand]) [68, 69, 70] 8 65
    [72, 105] (by decide)

/-! ## Step-structure characterizations -/

theorem cubeAfter_cons (st : List Cell) (d : Nat) (l : List Nat) :
    cubeAfter st (d :: l) = cubeAfter (applyMove (getCharMove d) st) l := rfl

theorem encryptLoop_length (table : List Int) :
    ∀ (data : List Nat) (st : List Cell) (driving i : Nat),
      (encryptLoop table st driving i data).length = data.length := by
  intro data
  induction data with
  | nil => intro st driving i; rfl
  | cons p rest ih =>
    intro st driving i
    simp only [encryptLoop, List.length_cons]
    rw [ih]

theorem decryptLoop_length (table : List Int) :
    ∀ (data : List Nat) (st : List Cell) (driving i : Nat),
      (decryptLoop table st driving i data).length = data.length := by
  intro data
  induction data with
  | nil => intro st driving i; rfl
  | cons c rest ih =>
    intro st driving i
    simp only [decryptLoop, List.length_cons]
    rw [ih]

theorem encryptLoop_getD (table : List Int) :
    ∀ (data : List Nat) (st : List Cell) (driving i n : Nat),
      n < data.length →
      (encryptLoop table st driving i data).getD n 0 =
        fromIndex (jsMod ((toIndex (data.getD n 0) : Int) +
          (toIndex (getSensorValue (cubeAfter st
            ((driving :: encryptLoop table st driving i data).take (n + 1)))) : Int) +
          getStepConstant table (i + n)) 53) := by
  intro data
  induction data with
  | nil => intro st driving i n hn; simp at hn
  | cons p rest ih =>
    intro st driving i n hn
    match n with
    | 0 =>
      simp only [encryptLoop, List.getD_cons_zero, List.take_succ_cons,
        List.take_zero, cubeAfter_cons, Nat.add_zero]
      rfl
    | Nat.succ m =>
      have hm : m < rest.length := by
        simpa [Nat.succ_lt_succ_iff] using hn
      simp only [encryptLoop, List.getD_cons_succ]
      rw [List.take_succ_cons, cubeAfter_cons,
        show i + Nat.succ m = i + 1 + m from by omega]
      exact ih _ _ _ m hm

theorem decryptLoop_getD (table : List Int) :
    ∀ (data : List Nat) (st : List Cell) (driving i n : Nat),
      n < data.length →
      (decryptLoop table st driving i data).getD n 0 =
        fromIndex (jsMod (jsMod ((toIndex (data.getD n 0) : Int) -
          (toIndex (getSensorValue (cubeAfter st
            ((driving :: data).take (n + 1)))) : Int) -
          getStepConstant table (i + n)) 53 + 53) 53) := by
  intro data
  induction data with
  | nil => intro st driving i n hn; simp at hn
  | cons c rest ih =>
    intro st driving i n hn
    match n with
    | 0 =>
      simp only [decryptLoop, List.getD_cons_zero, List.take_succ_cons,
        List.take_zero, cubeAfter_cons, Nat.add_zero]
      rw [normNonneg_jsMod, jsMod_add_53_jsMod]
      rfl
    | Nat.succ m =>
      have hm : m < rest.length := by
        simpa [Nat.succ_lt_succ_iff] using hn
      simp only [decryptLoop, List.getD_cons_succ]
      rw [List.take_succ_cons, cubeAfter_cons,
        show i + Nat.succ m = i + 1 + m from by omega]
      exact ih _ _ _ m hm

/-- C2: the encryption output has the filtered input's length, and its
`n`-th character is `decode((P + K + RC) mod 53)` where `P` indexes the
`n`-th filtered plaintext character, `K` indexes the sensor reading
taken after the `n+1`-st move completes — the moves being driven by the
IV followed by the *produced ciphertext* characters (CFB feedback,
never the plaintext) — and `RC = table[n mod len(table)]`. -/
theorem encrypt_step_structure (table : List Int) (st : List Cell) (iv : Nat)
    (pt : List Nat) :
    (encryptSequence table st pt iv).length = (filterAlpha pt).length ∧
    ∀ n : Nat, n < (filterAlpha pt).length →
      (encryptSequence table st pt iv).getD n 0 =
        fromIndex (jsMod ((toIndex ((filterAlpha pt).getD n 0) : Int) +
          (toIndex (getSensorValue (cubeAfter st
            ((iv :: encryptSequence table st pt iv).take (n + 1)))) : Int) +
          getStepConstant table n) 53) := by
  constructor
  · exact encryptLoop_length table (filterAlpha pt) st iv 0
  · intro n hn
    have := encryptLoop_getD table (filterAlpha pt) st iv 0 n hn
    simpa using this

theorem encrypt_step_structure_witness :
    (0 < (filterAlpha [72, 33, 105]).length) ∧
    (encryptSequence [4] (initCube (List.range 54)) [72, 33, 105] 65).getD 0 0 =
      fromIndex (jsMod ((toIndex ((filterAlpha [72, 33, 105]).getD 0 0) : Int) +
        (toIndex (getSensorValue (cubeAfter (initCube (List.range 54))
          ((65 :: encryptSequence [4] (initCube (List.range 54)) [72, 33, 105] 65).take 1))) : Int) +
        getStepConstant [4] 0) 53) :=
  ⟨by decide,
    (encrypt_step_structure [4] (initCube (List.range 54)) 65 [72, 33, 105]).2
      0 (by decide)⟩

/-- C3: decryption uses the same move-selection, sensor and
round-constant derivation as encryption, except that the moves are
driven by the IV followed by the *input ciphertext* characters, and the
`n`-th output character is `decode(((C - K - RC) mod 53 + 53) mod 53)`
(JS truncated `mod`), a value shown to lie in `[0,52]`. -/
theorem decrypt_step_structure (table : List Int) (st : List Cell) (iv : Nat)
    (ct : List Nat) :
    (decryptSequence table st ct iv).length = (filterAlpha ct).length ∧
    ∀ n : Nat, n < (filterAlpha ct).length →
      (decryptSequence table st ct iv).getD n 0 =
        fromIndex (jsMod (jsMod ((toIndex ((filterAlpha ct).getD n 0) : Int) -
          (toIndex (getSensorValue (cubeAfter st
            ((iv :: filterAlpha ct).take (n + 1)))) : Int) -
          getStepConstant table n) 53 + 53) 53) ∧
      0 ≤ jsMod (jsMod ((toIndex ((filterAlpha ct).getD n 0) : Int) -
          (toIndex (getSensorValue (cubeAfter st
            ((iv :: filterAlpha ct).take (n + 1)))) : Int) -
          getStepConstant table n) 53 + 53) 53 ∧
      jsMod (jsMod ((toIndex ((filterAlpha ct).getD n 0) : Int) -
          (toIndex (getSensorValue (cubeAfter st
            ((iv :: filterAlpha ct).take (n + 1)))) : Int) -
          getStepConstant table n) 53 + 53) 53 ≤ 52 := by
  refine ⟨decryptLoop_length table (filterAlpha ct) st iv 0, fun n hn => ?_⟩
  have h1 := decryptLoop_getD table (filterAlpha ct) st iv 0 n hn
  refine ⟨by simpa using h1, ?_, ?_⟩ <;>
    rw [jsMod_add_53_jsMod] <;> omega

theorem decrypt_step_structure_witness :
    (0 < (filterAlpha [75, 108]).length) ∧
    (decryptSequence [4] (initCube (List.range 54)) [75, 108] 65).getD 0 0 =
      fromIndex (jsMod (jsMod ((toIndex ((filterAlpha [75, 108]).getD 0 0) : Int) -
        (toIndex (getSensorValue (cubeAfter (initCube (List.range 54))
          ((65 :: filterAlpha [75, 108]).take 1))) : Int) -
        getStepConstant [4] 0) 53 + 53) 53) :=
  ⟨by decide,
    ((decrypt_step_structure [4] (initCube (List.range 54)) 65 [75, 108]).2
      0 (by decide)).1⟩

/-! ## Facelet conservation -/

/-- The multiset of all facelet labels present across the cells (blank
interior materials carry no label). -/
def labelMultiset (st : List Cell) : Multiset Nat :=
  (((st.map Cell.labels).map (fun ls => ls.filterMap id)).flatten : List Nat)

theorem applyMove_labels (m : Move) (st : List Cell) :
    (applyMove m st).map Cell.labels = st.map Cell.labels := by
  unfold applyMove
  rw [List.map_map]
  apply List.map_congr_left
  intro c _
  simp only [Function.comp_apply]
  split <;> rfl

theorem labelMultiset_applyMove (m : Move) (st : List Cell) :
    labelMultiset (applyMove m st) = labelMultiset st := by
  unfold labelMultiset
  rw [applyMove_labels]

theorem labelMultiset_applyMoves :
    ∀ (ms : List Move) (st : List Cell),
      labelMultiset (applyMoves ms st) = labelMultiset st := by
  intro ms
  induction ms with
  | nil => intro st; rfl
  | cons m rest ih =>
    intro st
    show labelMultiset (applyMoves rest (applyMove m st)) = labelMultiset st
    rw [ih, labelMultiset_applyMove]

/-- C7: after any finite sequence of generator moves on an initialized
cube, the multiset of facelet labels over all cells equals the multiset
assigned at initialization, and every single move keeps each cell's
label list attached to it unchanged — moves only permute positions and
orientations. -/
theorem facelet_labels_conserved (cs : List Nat) (ms : List Move) :
    labelMultiset (applyMoves ms (initCube cs)) = labelMultiset (initCube cs) ∧
    (∀ (st : List Cell) (m : Move),
      (applyMove m st).map Cell.labels = st.map Cell.labels) :=
  ⟨labelMultiset_applyMoves ms (initCube cs), fun st m => applyMove_labels m st⟩

/-! ## Reachable cube states and the sensor read

The quarter-turn rotations generate the 24-element rotation group of
the cube; tracking that every cubie's orientation stays inside it, that
the 27 positions stay a permutation of the lattice, and that stickers
keep facing outward gives the exact behavior of the sensor on every
state the program can reach. -/

def signedUnits : List V3 :=
  [⟨1, 0, 0⟩, ⟨-1, 0, 0⟩, ⟨0, 1, 0⟩, ⟨0, -1, 0⟩, ⟨0, 0, 1⟩, ⟨0, 0, -1⟩]

/-- The 24 proper rotations of the cube: an orthonormal right-handed
triple of signed unit vectors as matrix columns. -/
def rot24 : List Orient :=
  signedUnits.flatMap fun cx =>
    signedUnits.filterMap fun cy =>
      if dotV cx cy = 0 then some ⟨cx, cy, crossV cx cy⟩ else none

theorem idOrient_mem_rot24 : idOrient ∈ rot24 := by decide

theorem rot24_closed : ∀ (m : Move), ∀ o ∈ rot24, rotOrient m o ∈ rot24 := by
  intro m
  cases m <;> decide

/-- On every orientation in the rotation group, the sensor fold finds
best score 10 (dot product 1 with world up, scaled by 10) at an index
in `[0,6)` whose local normal is mapped exactly onto world up. -/
theorem rot24_sensor :
    ∀ o ∈ rot24,
      (bestAux o localNormals 0 (-10, -1)).1 = 10 ∧
      0 ≤ (bestAux o localNormals 0 (-10, -1)).2 ∧
      (bestAux o localNormals 0 (-10, -1)).2.toNat < 6 ∧
      orientApply o
        (localNormals.getD (bestAux o localNormals 0 (-10, -1)).2.toNat
          ⟨0, 0, 0⟩) = ⟨0, 1, 0⟩ := by
  decide

/-- The effect of a move on a position alone. -/
def movePos (m : Move) (p : V3) : V3 :=
  if moveAxisCoord m p = moveLayer m then moveMap m p else p

def posMultiset (st : List Cell) : Multiset V3 := (st.map Cell.pos : List V3)

/-- The 27 lattice points. -/
def lattice27 : Multiset V3 :=
  ((coordList.map fun t => (⟨t.1, t.2.1, t.2.2⟩ : V3)) : List V3)

theorem movePos_lattice : ∀ (m : Move),
    Multiset.map (movePos m) lattice27 = lattice27 := by
  intro m
  cases m <;> decide

theorem orientApply_rotOrient (m : Move) (o : Orient) (n : V3) :
    orientApply (rotOrient m o) n = moveMap m (orientApply o n) := by
  cases m <;> simp only [orientApply, rotOrient, moveMap, V3.mk.injEq] <;>
    refine ⟨by ring_nf, by ring_nf, by ring_nf⟩

theorem moveMap_dot (m : Move) (u v : V3) :
    dotV (moveMap m u) (moveMap m v) = dotV u v := by
  cases m <;> simp only [dotV, moveMap] <;> ring

theorem initCubeAux_pos (cs : List Nat) :
    ∀ (coords : List (Int × Int × Int)) (ctr : Nat),
      (initCubeAux cs ctr coords).map Cell.pos =
        coords.map (fun t => V3.mk t.1 t.2.1 t.2.2) := by
  intro coords
  induction coords with
  | nil => intro ctr; rfl
  | cons t rest ih =>
    intro ctr
    obtain ⟨x, y, z⟩ := t
    simp only [initCubeAux, List.map_cons, ih]
    rfl

theorem posMultiset_init (cs : List Nat) :
    posMultiset (initCube cs) = lattice27 := by
  unfold posMultiset initCube lattice27
  rw [initCubeAux_pos]

theorem applyMove_pos (m : Move) (st : List Cell) :
    (applyMove m st).map Cell.pos = (st.map Cell.pos).map (movePos m) := by
  unfold applyMove movePos
  rw [List.map_map, List.map_map]
  apply List.map_congr_left
  intro c _
  simp only [Function.comp_apply]
  split_ifs <;> rfl

theorem posMultiset_applyMove (m : Move) (st : List Cell) :
    posMultiset (applyMove m st) = Multiset.map (movePos m) (posMultiset st) := by
  unfold posMultiset
  rw [applyMove_pos]
  rfl

/-- A well-formed cubie: orientation inside the rotation group, six
materials, and every facelet direction currently pointing at an exposed
face of the cube (dot product 1 of position and world normal) carries
an alphabet sticker. -/
def CellOK (c : Cell) : Prop :=
  c.orient ∈ rot24 ∧
  c.labels.length = 6 ∧
  ∀ i : Nat, i < 6 →
    dotV c.pos (orientApply c.orient (localNormals.getD i ⟨0, 0, 0⟩)) = 1 →
    ∃ ch, c.labels.getD i none = some ch ∧ isAlphaCode ch = true

/-- A well-formed cube state: the 27 positions are exactly the lattice
and every cell is well-formed. -/
def StOK (st : List Cell) : Prop :=
  posMultiset st = lattice27 ∧ ∀ c ∈ st, CellOK c

theorem StOK_applyMove (m : Move) (st : List Cell) (h : StOK st) :
    StOK (applyMove m st) := by
  obtain ⟨hpos, hcells⟩ := h
  constructor
  · rw [posMultiset_applyMove, hpos, movePos_lattice]
  · intro c hc
    unfold applyMove at hc
    rw [List.mem_map] at hc
    obtain ⟨c0, hc0, hc0eq⟩ := hc
    have hok := hcells c0 hc0
    subst hc0eq
    split_ifs with hlayer
    · refine ⟨rot24_closed m _ hok.1, hok.2.1, ?_⟩
      intro i hi hdot
      apply hok.2.2 i hi
      rw [orientApply_rotOrient, moveMap_dot] at hdot
      exact hdot
    · exact hok

theorem StOK_applyMoves :
    ∀ (ms : List Move) (st : List Cell), StOK st → StOK (applyMoves ms st) := by
  intro ms
  induction ms with
  | nil => intro st h; exact h
  | cons m rest ih =>
    intro st h
    exact ih (applyMove m st) (StOK_applyMove m st h)

theorem get?_some_alpha (cs : List Nat) (halpha : ∀ ch ∈ cs, isAlphaCode ch = true)
    (k : Nat) (hk : k < cs.length) :
    ∃ ch, cs.get? k = some ch ∧ isAlphaCode ch = true :=
  ⟨cs.get ⟨k, hk⟩, List.get?_eq_get hk, halpha _ (List.get_mem cs k hk)⟩

set_option maxRecDepth 8000 in
/-- The explicit form of the initialized cube: 27 cubies in iteration
order, stickers consumed in the fixed enumeration order, 54 in all. -/
theorem initCube_eq (cs : List Nat) :
    initCube cs = [
    ⟨⟨-1, -1, -1⟩, idOrient, [none, cs.get? 0, none, cs.get? 1, none, cs.get? 2]⟩,
    ⟨⟨-1, -1, 0⟩, idOrient, [none, cs.get? 3, none, cs.get? 4, none, none]⟩,
    ⟨⟨-1, -1, 1⟩, idOrient, [none, cs.get? 5, none, cs.get? 6, cs.get? 7, none]⟩,
    ⟨⟨-1, 0, -1⟩, idOrient, [none, cs.get? 8, none, none, none, cs.get? 9]⟩,
    ⟨⟨-1, 0, 0⟩, idOrient, [none, cs.get? 10, none, none, none, none]⟩,
    ⟨⟨-1, 0, 1⟩, idOrient, [none, cs.get? 11, none, none, cs.get? 12, none]⟩,
    ⟨⟨-1, 1, -1⟩, idOrient, [none, cs.get? 13, cs.get? 14, none, none, cs.get? 15]⟩,
    ⟨⟨-1, 1, 0⟩, idOrient, [none, cs.get? 16, cs.get? 17, none, none, none]⟩,
    ⟨⟨-1, 1, 1⟩, idOrient, [none, cs.get? 18, cs.get? 19, none, cs.get? 20, none]⟩,
    ⟨⟨0, -1, -1⟩, idOrient, [none, none, none, cs.get? 21, none, cs.get? 22]⟩,
    ⟨⟨0, -1, 0⟩, idOrient, [none, none, none, cs.get? 23, none, none]⟩,
    ⟨⟨0, -1, 1⟩, idOrient, [none, none, none, cs.get? 24, cs.get? 25, none]⟩,
    ⟨⟨0, 0, -1⟩, idOrient, [none, none, none, none, none, cs.get? 26]⟩,
    ⟨⟨0, 0, 0⟩, idOrient, [none, none, none, none, none, none]⟩,
    ⟨⟨0, 0, 1⟩, idOrient, [none, none, none, none, cs.get? 27, none]⟩,
    ⟨⟨0, 1, -1⟩, idOrient, [none, none, cs.get? 28, none, none, cs.get? 29]⟩,
    ⟨⟨0, 1, 0⟩, idOrient, [none, none, cs.get? 30, none, none, none]⟩,
    ⟨⟨0, 1, 1⟩, idOrient, [none, none, cs.get? 31, none, cs.get? 32, none]⟩,
    ⟨⟨1, -1, -1⟩, idOrient, [cs.get? 33, none, none, cs.get? 34, none, cs.get? 35]⟩,
    ⟨⟨1, -1, 0⟩, idOrient, [cs.get? 36, none, none, cs.get? 37, none, none]⟩,
    ⟨⟨1, -1, 1⟩, idOrient, [cs.get? 38, none, none, cs.get? 39, cs.get? 40, none]⟩,
    ⟨⟨1, 0, -1⟩, idOrient, [cs.get? 41, none, none, none, none, cs.get? 42]⟩,
    ⟨⟨1, 0, 0⟩, idOrient, [cs.get? 43, none, none, none, none, none]⟩,
    ⟨⟨1, 0, 1⟩, idOrient, [cs.get? 44, none, none, none, cs.get? 45, none]⟩,
    ⟨⟨1, 1, -1⟩, idOrient, [cs.get? 46, none, cs.get? 47, none, none, cs.get? 48]⟩,
    ⟨⟨1, 1, 0⟩, idOrient, [cs.get? 49, none, cs.get? 50, none, none, none]⟩,
    ⟨⟨1, 1, 1⟩, idOrient, [cs.get? 51, none, cs.get? 52, none, cs.get? 53, none]⟩] := rfl

set_option maxRecDepth 8000 in
set_option maxHeartbeats 3200000 in
theorem StOK_init (cs : List Nat) (h54 : cs.length = 54)
    (halpha : ∀ ch ∈ cs, isAlphaCode ch = true) : StOK (initCube cs) := by
  constructor
  · exact posMultiset_init cs
  · intro c hc
    rw [initCube_eq] at hc
    fin_cases hc <;>
      refine ⟨idOrient_mem_rot24, rfl, fun i hi => ?_⟩ <;>
      interval_cases i <;>
      first
        | (intro hdot; refine absurd hdot ?_;
           simp [dotV, orientApply, idOrient, localNormals]; done)
        | (intro hdot; refine get?_some_alpha cs halpha _ ?_; omega)

/-- On every well-formed state the sensor read succeeds: a cubie
occupies (1,1,1), its best-aligned facelet has dot product 1 with world
up, and the returned character is an alphabet sticker. -/
theorem StOK_sensor (st : List Cell) (h : StOK st) :
    isAlphaCode (getSensorValue st) = true ∧ sensorBestDot10 st = 10 := by
  obtain ⟨hpos, hcells⟩ := h
  have hmem : (⟨1, 1, 1⟩ : V3) ∈ st.map Cell.pos := by
    have hm : (⟨1, 1, 1⟩ : V3) ∈ posMultiset st := by
      rw [hpos]; decide
    simpa [posMultiset] using hm
  rw [List.mem_map] at hmem
  obtain ⟨c1, hc1mem, hc1pos⟩ := hmem
  have hsome : (st.find? (fun c => decide (c.pos = sensorPos))).isSome :=
    List.find?_isSome.mpr ⟨c1, hc1mem, by simp [hc1pos, sensorPos]⟩
  obtain ⟨c0, hfind⟩ := Option.isSome_iff_exists.mp hsome
  have hc0pos : c0.pos = sensorPos := by
    have hp := List.find?_some hfind
    simpa using hp
  have hc0mem : c0 ∈ st := List.mem_of_find?_eq_some hfind
  obtain ⟨horient, hlen, hlab⟩ := hcells c0 hc0mem
  obtain ⟨hbest1, hbest2, hbest3, hbest4⟩ := rot24_sensor c0.orient horient
  have hdot : dotV c0.pos (orientApply c0.orient
      (localNormals.getD (bestAux c0.orient localNormals 0 (-10, -1)).2.toNat
        ⟨0, 0, 0⟩)) = 1 := by
    rw [hc0pos, hbest4]
    decide
  obtain ⟨ch, hch, hchalpha⟩ := hlab _ hbest3 hdot
  constructor
  · unfold getSensorValue
    rw [hfind]
    simp only [hbest1]
    rw [if_neg (by omega)]
    rw [hch]
    exact hchalpha
  · unfold sensorBestDot10
    rw [hfind]
    exact hbest1

theorem StOK_reachable (cs : List Nat) (ms : List Move)
    (h54 : cs.length = 54) (halpha : ∀ ch ∈ cs, isAlphaCode ch = true) :
    StOK (applyMoves ms (initCube cs)) :=
  StOK_applyMoves ms (initCube cs) (StOK_init cs h54 halpha)

/-- C9: on every cube state the program can reach (a cube initialized
from a 54-symbol alphabet character set, after any move sequence), the
sensor read fails — returns the sentinel `"?"` — exactly when the best
world-space alignment of the occupying cubie's facelet normals with
world up is not above the confidence threshold (`dot > 0.9`, embedded
exactly as `10·dot > 9` for the integer dot products of the exact
orientation model); and the sentinel fed to `toIndex` yields 0, the
index of `A`.  On reachable states both sides of the equivalence are
false: the occupant's best alignment is always exactly 1. -/
theorem sensor_failure_iff_low_confidence (cs : List Nat) (ms : List Move)
    (h54 : cs.length = 54) (halpha : ∀ ch ∈ cs, isAlphaCode ch = true) :
    (getSensorValue (applyMoves ms (initCube cs)) = sensorUnknown ↔
      ¬ (9 < sensorBestDot10 (applyMoves ms (initCube cs)))) ∧
    toIndex sensorUnknown = 0 := by
  obtain ⟨halph, hdot⟩ :=
    StOK_sensor (applyMoves ms (initCube cs)) (StOK_reachable cs ms h54 halpha)
  constructor
  · constructor
    · intro h63
      rw [h63] at halph
      exact absurd halph (by decide)
    · intro hcon
      rw [hdot] at hcon
      omega
  · rfl

theorem sensor_failure_iff_low_confidence_witness :
    ((List.range 54).map (fun n => 65 + n % 26)).length = 54 ∧
    (getSensorValue (applyMoves [Move.U, Move.Rp]
        (initCube ((List.range 54).map (fun n => 65 + n % 26)))) =
          sensorUnknown ↔
      ¬ (9 < sensorBestDot10 (applyMoves [Move.U, Move.Rp]
        (initCube ((List.range 54).map (fun n => 65 + n % 26)))))) :=
  ⟨by decide,
    (sensor_failure_iff_low_confidence ((List.range 54).map (fun n => 65 + n % 26))
      [Move.U, Move.Rp] (by decide) (by decide)).1⟩

end CubeSim
